import Mathlib

/-!
Verification of the honeymelon job-orchestration subsystem
(`src-tauri/src/runner` plus `binary_resolver.rs`), shallowly embedded
in Lean 4.

Modelling conventions:
* Rust `String`/`&str` used only for equality/keys stays `String`; strings
  that are scanned character by character (argument validation, progress
  parsing) are modelled as `Str := List Char`, obtained from literals with
  `str`.
* Rust `f64` parsing of plain decimal numerals is modelled exactly over `ℚ`
  (the numerals the subsystem parses are decimal fractions, which this
  represents without rounding).
* Filesystem state is an association list from path to file content;
  OS-level failures the code checks for (rename) are oracle booleans, while
  best-effort deletions (`let _ = fs::remove_file(..)`) are modelled as
  succeeding.
* Mutex-guarded shared state is modelled by explicit state passing: each
  operation returns its updated state.
-/

namespace Honeymelon

/-- Character-list model of the strings the runner scans. -/
abbrev Str := List Char

/-- Coerce a Lean string literal into the character-list model. -/
def str (s : String) : Str := s.data

/-- The stable error value every runner operation surfaces
(`AppError { code, message }` in `error.rs`). -/
structure AppError where
  code : String
  message : String
deriving Repr, DecidableEq

/-- Error code of an `Except AppError` result, `none` on success. -/
def errCode {α : Type} : Except AppError α → Option String
  | .error e => some e.code
  | .ok _ => none

/-- Backtick character (written by code point to keep the file clean). -/
def backtick : Char := Char.ofNat 96

/-- One argument trips the shell-metacharacter blacklist
(`validate_args` body, validator.rs lines 21-27). -/
def argUnsafe (arg : String) : Bool :=
  arg.data.contains ';' || arg.data.contains '|' || arg.data.contains '&'
    || (str "$(").isPrefixOf arg.data || arg.data.contains backtick

namespace JobValidator

/-- `JobValidator::validate_args` (validator.rs lines 12-36): rejects an
empty argument list, then rejects the first argument containing a shell
metacharacter; otherwise succeeds.  Pure: no state is read or written. -/
def validate_args (args : List String) : Except AppError Unit :=
  if args.isEmpty then
    .error ⟨"job_invalid_args", "FFmpeg arguments must not be empty."⟩
  else
    match args.find? argUnsafe with
    | some arg => .error ⟨"job_invalid_args", "Unsafe argument detected: " ++ arg⟩
    | none => .ok ()

end JobValidator

/-- Spec-side reading of "contains a shell metacharacter from the set
or begins with the command-substitution opener". -/
def UnsafeArgProp (a : String) : Prop :=
  ';' ∈ a.data ∨ '|' ∈ a.data ∨ '&' ∈ a.data ∨ backtick ∈ a.data
    ∨ (str "$(") <+: a.data

theorem argUnsafe_iff (a : String) : argUnsafe a = true ↔ UnsafeArgProp a := by
  simp only [argUnsafe, UnsafeArgProp, Bool.or_eq_true, List.elem_eq_mem,
    decide_eq_true_iff, List.isPrefixOf_iff_prefix]
  tauto

/-- **C7.** `validate_args` returns an error (always with code
`job_invalid_args`) iff the argument list is empty or some argument
contains `;`, `|`, `&`, a backtick, or begins with `$(`; otherwise it
returns `Ok`.  It is a pure function, so it mutates no state. -/
theorem validate_args_error_iff (args : List String) :
    (errCode (JobValidator.validate_args args) = some "job_invalid_args"
      ↔ (args = [] ∨ ∃ a ∈ args, UnsafeArgProp a))
    ∧ (JobValidator.validate_args args = .ok ()
      ∨ errCode (JobValidator.validate_args args) = some "job_invalid_args") := by
  constructor
  · unfold JobValidator.validate_args
    by_cases hne : args.isEmpty
    · simp [hne, errCode]
      exact Or.inl (List.isEmpty_iff.mp hne)
    · simp only [hne, if_neg, Bool.false_eq_true, if_false]
      rcases hfind : args.find? argUnsafe with _ | a
      · simp only [errCode]
        constructor
        · intro h; cases h
        · rintro (rfl | ⟨a, ha, hua⟩)
          · simp at hne
          · have := List.find?_eq_none.mp hfind a ha
            rw [argUnsafe_iff] at this
            exact absurd hua this
      · simp only [errCode, Option.some.injEq]
        constructor
        · intro _
          exact Or.inr ⟨a, List.mem_of_find?_eq_some hfind,
            (argUnsafe_iff a).mp (List.find?_some hfind)⟩
        · intro _; trivial
  · unfold JobValidator.validate_args
    by_cases hne : args.isEmpty
    · simp [hne, errCode]
    · simp only [hne, Bool.false_eq_true, if_false]
      rcases args.find? argUnsafe with _ | a <;> simp [errCode]

/-- Witness for C7: the singleton list `["a;b"]` is rejected with
`job_invalid_args`, via the theorem at that concrete input. -/
theorem validate_args_error_iff_witness :
    errCode (JobValidator.validate_args ["a;b"]) = some "job_invalid_args" :=
  (validate_args_error_iff ["a;b"]).1.mpr
    (Or.inr ⟨"a;b", by simp, Or.inl (by decide)⟩)

/-! ### Progress parsing (progress_monitor.rs lines 232-290) -/

/-- Split a character list at every occurrence of `sep`
(Rust `value.split(sep)`: `n` separators yield `n+1` groups, empty groups
included). -/
def splitCh (sep : Char) : Str → List Str
  | [] => [[]]
  | c :: rest =>
    match splitCh sep rest with
    | [] => [[]]
    | g :: gs => if c = sep then [] :: g :: gs else (c :: g) :: gs

/-- Numeric value of a digit run; `none` unless all characters are ASCII
digits.  The empty run maps to `some 0` (callers guard emptiness). -/
def natVal (cs : Str) : Option Nat :=
  if cs.all Char.isDigit then
    some (cs.foldl (fun a c => a * 10 + (c.toNat - 48)) 0)
  else none

/-- Rust `str::parse::<f64>()` restricted to plain decimal numerals
(optional sign, integer digits, optional fraction), modelled exactly over
`ℚ`.  The exotic forms f64 parsing also accepts (exponents, `inf`, `NaN`)
never arise from the ffmpeg fields this subsystem parses and are outside
the model. -/
def parseRat (s : Str) : Option ℚ :=
  let signed : ℚ × Str :=
    match s with
    | '-' :: r => (-1, r)
    | '+' :: r => (1, r)
    | r => (1, r)
  match splitCh '.' signed.2 with
  | [i] =>
    if i = [] then none
    else (natVal i).map (fun n => signed.1 * n)
  | [i, f] =>
    if i = [] ∧ f = [] then none
    else do
      let iv ← natVal i
      let fv ← natVal f
      pure (signed.1 * ((iv : ℚ) + (fv : ℚ) / ((10 : ℚ) ^ f.length)))
  | _ => none

/-- The parsed progress metrics of one stderr line (events.rs
`ProgressMetrics`). -/
structure ProgressMetrics where
  processed_seconds : Option ℚ
  fps : Option ℚ
  speed : Option ℚ
deriving Repr, DecidableEq

namespace ProgressMonitor

/-- `ProgressMonitor::parse_timecode` (progress_monitor.rs lines 275-290):
empty input is rejected; exactly three colon-separated segments are read as
`hours*3600 + minutes*60 + seconds`; any other input is parsed as bare
seconds. -/
def parse_timecode (value : Str) : Option ℚ :=
  if value = [] then none
  else
    let parts := splitCh ':' value
    if parts.length ≠ 3 then parseRat value
    else do
      let hours ← (parts.get? 0).bind parseRat
      let minutes ← (parts.get? 1).bind parseRat
      let seconds ← (parts.get? 2).bind parseRat
      pure (hours * 3600 + minutes * 60 + seconds)

/-- Rust `strip_prefix`: the remainder of `s` after `p`, when `p` leads. -/
def stripPre (p s : Str) : Option Str :=
  if p.isPrefixOf s then some (s.drop p.length) else none

/-- Rust `str::trim` (strip leading and trailing whitespace). -/
def trimStr (s : Str) : Str :=
  ((s.dropWhile Char.isWhitespace).reverse.dropWhile Char.isWhitespace).reverse

/-- Rust `trim_end_matches('x')`: drop every trailing `x`. -/
def trimEndX (s : Str) : Str :=
  (s.reverse.dropWhile (fun c => c = 'x')).reverse

/-- Rust `split_whitespace` groups: split at each whitespace character,
keeping empty groups (filtered by `tokens`). -/
def wsGroups : Str → List Str
  | [] => [[]]
  | c :: rest =>
    match wsGroups rest with
    | [] => [[]]
    | g :: gs => if c.isWhitespace then [] :: g :: gs else (c :: g) :: gs

/-- Rust `str::split_whitespace`: the non-empty maximal runs between
whitespace. -/
def tokens (s : Str) : List Str := (wsGroups s).filter (fun g => g ≠ [])

/-- The body of the token loop in `parse_progress_line` (progress_monitor.rs
lines 250-261): the first matching of the `time=` / `out_time=` / `fps=` /
`speed=` prefixes overwrites its field with the token's parsed value. -/
def tokenStep (acc : ProgressMetrics) (token : Str) : ProgressMetrics :=
  match stripPre (str "time=") token with
  | some v => { acc with processed_seconds := parse_timecode v }
  | none =>
    match stripPre (str "out_time=") token with
    | some v => { acc with processed_seconds := parse_timecode v }
    | none =>
      match stripPre (str "fps=") token with
      | some v => { acc with fps := parseRat v }
      | none =>
        match stripPre (str "speed=") token with
        | some v => { acc with speed := parseRat (trimStr (trimEndX v)) }
        | none => acc

/-- `ProgressMonitor::parse_progress_line` (progress_monitor.rs lines
232-273): trim the line; an empty line yields nothing; a line that itself
starts with `out_time=` / `fps=` / `speed=` is read as that single field;
otherwise every whitespace-separated token is folded through `tokenStep`;
if no field was recognized the result is `none`. -/
def parse_progress_line (line : Str) : Option ProgressMetrics :=
  let trimmed := trimStr line
  if trimmed = [] then none
  else
    let base : ProgressMetrics := ⟨none, none, none⟩
    let m : ProgressMetrics :=
      match stripPre (str "out_time=") trimmed with
      | some v => { base with processed_seconds := parse_timecode v }
      | none =>
        match stripPre (str "fps=") trimmed with
        | some v => { base with fps := parseRat v }
        | none =>
          match stripPre (str "speed=") trimmed with
          | some v => { base with speed := parseRat (trimStr (trimEndX v)) }
          | none => (tokens trimmed).foldl tokenStep base
    if m.processed_seconds = none ∧ m.fps = none ∧ m.speed = none then none
    else some m

end ProgressMonitor

theorem parse_timecode_eval_hms : ProgressMonitor.parse_timecode (str "01:02:03") = some 3723 := by
  simp [ProgressMonitor.parse_timecode, str, splitCh, parseRat, natVal]
  norm_num
theorem parse_timecode_eval_bare : ProgressMonitor.parse_timecode (str "42.5") = some (85 / 2 : ℚ) := by
  simp [ProgressMonitor.parse_timecode, str, splitCh, parseRat, natVal]
  norm_num
theorem parse_timecode_eval_empty : ProgressMonitor.parse_timecode (str "") = none := by
  simp [ProgressMonitor.parse_timecode, str]
theorem parse_timecode_eval_two_segments : ProgressMonitor.parse_timecode (str "12:34") = none := by
  simp [ProgressMonitor.parse_timecode, str, splitCh, parseRat, natVal]
theorem parse_timecode_eval_frac : ProgressMonitor.parse_timecode (str "01:23:45.67") = some (5025.67 : ℚ) := by
  simp [ProgressMonitor.parse_timecode, str, splitCh, parseRat, natVal]
  norm_num
theorem parse_progress_line_eval_sample :
    ProgressMonitor.parse_progress_line
      (str "frame=123 fps=45 q=28.0 size=1024kB time=00:00:05.12 bitrate=1638.4kbits/s speed=1.5x")
      = some ⟨some (5.12 : ℚ), some 45, some (1.5 : ℚ)⟩ := by
  simp [ProgressMonitor.parse_progress_line, ProgressMonitor.trimStr,
    ProgressMonitor.stripPre, ProgressMonitor.tokens, ProgressMonitor.wsGroups,
    ProgressMonitor.tokenStep, ProgressMonitor.trimEndX,
    ProgressMonitor.parse_timecode, str, splitCh, parseRat, natVal]
  norm_num

theorem splitCh_ne_nil (sep : Char) (t : Str) : splitCh sep t ≠ [] := by
  induction t with
  | nil => simp [splitCh]
  | cons c rest ih =>
    unfold splitCh
    rcases h : splitCh sep rest with _ | ⟨g, gs⟩
    · exact absurd h ih
    · by_cases hc : c = sep <;> simp [hc]

theorem splitCh_eq_single {sep : Char} {t : Str} (h : sep ∉ t) : splitCh sep t = [t] := by
  induction t with
  | nil => rfl
  | cons c rest ih =>
    have hc : ¬c = sep := fun e => h (e ▸ List.mem_cons_self c rest)
    have hrest : sep ∉ rest := fun m => h (List.mem_cons_of_mem _ m)
    simp [splitCh, ih hrest, hc]

theorem splitCh_append {sep : Char} {h rest : Str} (hh : sep ∉ h) :
    splitCh sep (h ++ sep :: rest) = h :: splitCh sep rest := by
  induction h with
  | nil =>
    simp only [List.nil_append]
    rcases e : splitCh sep rest with _ | ⟨g, gs⟩
    · exact absurd e (splitCh_ne_nil sep rest)
    · conv_lhs => rw [splitCh]
      rw [e]
      simp
  | cons c h' ih =>
    have hc : ¬c = sep := fun e => hh (e ▸ List.mem_cons_self c h')
    have hh' : sep ∉ h' := fun m => hh (List.mem_cons_of_mem _ m)
    simp only [List.cons_append]
    conv_lhs => rw [splitCh]
    rw [ih hh']
    simp [hc]

namespace ProgressMonitor

theorem parse_timecode_hms (h m s : Str) (qh qm qs : ℚ)
    (hh : ':' ∉ h) (hm : ':' ∉ m) (hs : ':' ∉ s)
    (ph : parseRat h = some qh) (pm : parseRat m = some qm)
    (ps : parseRat s = some qs) :
    parse_timecode (h ++ ':' :: (m ++ ':' :: s)) = some (qh * 3600 + qm * 60 + qs) := by
  have hsplit : splitCh ':' (h ++ ':' :: (m ++ ':' :: s)) = [h, m, s] := by
    rw [splitCh_append hh, splitCh_append hm, splitCh_eq_single hs]
  have hne : ¬(h ++ ':' :: (m ++ ':' :: s)) = [] := by cases h <;> simp
  unfold parse_timecode
  simp [hne, hsplit, ph, pm, ps]

theorem stripPre_eq_none {p s : Str} (h : ¬p <+: s) : stripPre p s = none := by
  simp [stripPre, List.isPrefixOf_iff_prefix, h]

/-- A token that starts with none of the four recognized prefixes leaves the
accumulator untouched. -/
theorem tokenStep_skip {t : Str} (acc : ProgressMetrics)
    (h1 : ¬str "time=" <+: t) (h2 : ¬str "out_time=" <+: t)
    (h3 : ¬str "fps=" <+: t) (h4 : ¬str "speed=" <+: t) :
    tokenStep acc t = acc := by
  simp [tokenStep, stripPre_eq_none h1, stripPre_eq_none h2,
    stripPre_eq_none h3, stripPre_eq_none h4]

theorem foldl_tokenStep_skip (acc : ProgressMetrics) {ts : List Str}
    (h : ∀ t ∈ ts, ¬str "time=" <+: t ∧ ¬str "out_time=" <+: t
      ∧ ¬str "fps=" <+: t ∧ ¬str "speed=" <+: t) :
    List.foldl tokenStep acc ts = acc := by
  induction ts generalizing acc with
  | nil => rfl
  | cons t ts ih =>
    obtain ⟨h1, h2, h3, h4⟩ := h t (by simp)
    rw [List.foldl_cons, tokenStep_skip acc h1 h2 h3 h4]
    exact ih _ (fun u hu => h u (by simp [hu]))

theorem tokenStep_time (acc : ProgressMetrics) (v : Str) :
    tokenStep acc (str "time=" ++ v)
      = { acc with processed_seconds := parse_timecode v } := by
  simp [tokenStep, stripPre, str, List.isPrefixOf]

theorem tokenStep_fps (acc : ProgressMetrics) (v : Str) :
    tokenStep acc (str "fps=" ++ v) = { acc with fps := parseRat v } := by
  simp [tokenStep, stripPre, str, List.isPrefixOf]

theorem tokenStep_speed (acc : ProgressMetrics) (v : Str) :
    tokenStep acc (str "speed=" ++ v)
      = { acc with speed := parseRat (trimStr (trimEndX v)) } := by
  simp [tokenStep, stripPre, str, List.isPrefixOf]

end ProgressMonitor

/-- **C6.** Progress parsing: `parse_timecode` maps three colon-separated
segments to `hours*3600 + minutes*60 + seconds`, parses any other non-empty
string as bare seconds, and rejects the empty string; `parse_progress_line`
extracts `processed_seconds = 5.12`, `fps = 45`, `speed = 1.5` from the
sample ffmpeg status line, yields nothing on the empty line or a line with
no recognized `time=`/`out_time=`/`fps=`/`speed=` field, and in the token
loop a later token of a kind overwrites any earlier value of that kind. -/
theorem progress_parsing_spec :
    (∀ (h m s : Str) (qh qm qs : ℚ), ':' ∉ h → ':' ∉ m → ':' ∉ s →
      parseRat h = some qh → parseRat m = some qm → parseRat s = some qs →
      ProgressMonitor.parse_timecode (h ++ ':' :: (m ++ ':' :: s))
        = some (qh * 3600 + qm * 60 + qs))
    ∧ (∀ value : Str, value ≠ [] → (splitCh ':' value).length ≠ 3 →
      ProgressMonitor.parse_timecode value = parseRat value)
    ∧ ProgressMonitor.parse_timecode [] = none
    ∧ ProgressMonitor.parse_progress_line
        (str "frame=123 fps=45 q=28.0 size=1024kB time=00:00:05.12 bitrate=1638.4kbits/s speed=1.5x")
        = some ⟨some (5.12 : ℚ), some 45, some (1.5 : ℚ)⟩
    ∧ ProgressMonitor.parse_progress_line [] = none
    ∧ (∀ line : Str,
      (∀ t ∈ ProgressMonitor.tokens (ProgressMonitor.trimStr line),
        ¬str "time=" <+: t ∧ ¬str "out_time=" <+: t
          ∧ ¬str "fps=" <+: t ∧ ¬str "speed=" <+: t) →
      ¬str "out_time=" <+: ProgressMonitor.trimStr line →
      ¬str "fps=" <+: ProgressMonitor.trimStr line →
      ¬str "speed=" <+: ProgressMonitor.trimStr line →
      ProgressMonitor.parse_progress_line line = none)
    ∧ (∀ (acc : ProgressMetrics) (ts : List Str) (v : Str),
      (List.foldl ProgressMonitor.tokenStep acc (ts ++ [str "time=" ++ v])).processed_seconds
        = ProgressMonitor.parse_timecode v)
    ∧ (∀ (acc : ProgressMetrics) (ts : List Str) (v : Str),
      (List.foldl ProgressMonitor.tokenStep acc (ts ++ [str "fps=" ++ v])).fps
        = parseRat v)
    ∧ (∀ (acc : ProgressMetrics) (ts : List Str) (v : Str),
      (List.foldl ProgressMonitor.tokenStep acc (ts ++ [str "speed=" ++ v])).speed
        = parseRat (ProgressMonitor.trimStr (ProgressMonitor.trimEndX v))) := by
  refine ⟨?_, ?_, ?_, ?_, ?_, ?_, ?_, ?_, ?_⟩
  · exact fun h m s qh qm qs hh hm hs ph pm ps =>
      ProgressMonitor.parse_timecode_hms h m s qh qm qs hh hm hs ph pm ps
  · intro value hne hlen
    unfold ProgressMonitor.parse_timecode
    simp [hne, hlen]
  · rfl
  · simp [ProgressMonitor.parse_progress_line, ProgressMonitor.trimStr,
      ProgressMonitor.stripPre, ProgressMonitor.tokens, ProgressMonitor.wsGroups,
      ProgressMonitor.tokenStep, ProgressMonitor.trimEndX,
      ProgressMonitor.parse_timecode, str, splitCh, parseRat, natVal]
    norm_num
  · rfl
  · intro line htok h1 h2 h3
    unfold ProgressMonitor.parse_progress_line
    by_cases he : ProgressMonitor.trimStr line = []
    · simp [he]
    · simp only [he, if_neg, if_false]
      rw [ProgressMonitor.stripPre_eq_none h1, ProgressMonitor.stripPre_eq_none h2,
        ProgressMonitor.stripPre_eq_none h3,
        ProgressMonitor.foldl_tokenStep_skip _ htok]
      simp
  · intro acc ts v
    rw [List.foldl_append]
    simp [ProgressMonitor.tokenStep_time]
  · intro acc ts v
    rw [List.foldl_append]
    simp [ProgressMonitor.tokenStep_fps]
  · intro acc ts v
    rw [List.foldl_append]
    simp [ProgressMonitor.tokenStep_speed]

/-- Witness for C6: the theorem applied at the concrete timecode
`"01:23:45.67"` gives `1*3600 + 23*60 + 45.67 = 5025.67` seconds. -/
theorem progress_parsing_spec_witness :
    ProgressMonitor.parse_timecode (str "01:23:45.67") = some (5025.67 : ℚ) := by
  have h := progress_parsing_spec.1 (str "01") (str "23") (str "45.67")
    1 23 (45.67 : ℚ) (by decide) (by decide) (by decide)
    (by simp [parseRat, str, splitCh, natVal] <;> norm_num)
    (by simp [parseRat, str, splitCh, natVal] <;> norm_num)
    (by simp [parseRat, str, splitCh, natVal] <;> norm_num)
  have e : str "01" ++ ':' :: (str "23" ++ ':' :: str "45.67") = str "01:23:45.67" := by
    decide
  rw [e] at h
  rw [h]
  norm_num

/-! ### The bounded log buffer (progress_monitor.rs lines 54-68) -/

/-- `RunningProcess::push_log` acting on the buffer contents (head of the
list = oldest line): evict the oldest line once 500 entries are held, then
append the new line. -/
def push_log (logs : List String) (line : String) : List String :=
  (if logs.length ≥ 500 then logs.drop 1 else logs) ++ [line]

/-- `RunningProcess::drain_logs`: return the whole buffer and leave it
empty. -/
def drain_logs (logs : List String) : List String × List String := (logs, [])

theorem foldl_push_log_eq (lines : List String) :
    List.foldl push_log [] lines = lines.drop (lines.length - 500) := by
  induction lines using List.reverseRecOn with
  | nil => rfl
  | append_singleton L x ih =>
    rw [List.foldl_append, List.foldl_cons, List.foldl_nil, ih]
    unfold push_log
    by_cases h : L.length < 500
    · rw [if_neg (by simp only [List.length_drop]; omega)]
      have e0 : L.length - 500 = 0 := by omega
      have e1 : (L ++ [x]).length - 500 = 0 := by
        simp only [List.length_append, List.length_cons, List.length_nil]
        omega
      rw [e0, e1, List.drop_zero, List.drop_zero]
    · rw [if_pos (by simp only [List.length_drop]; omega)]
      rw [List.drop_drop]
      have hle : (L ++ [x]).length - 500 ≤ L.length := by
        simp only [List.length_append, List.length_cons, List.length_nil]
        omega
      rw [List.drop_append_of_le_length hle]
      have e2 : L.length - 500 + 1 = (L ++ [x]).length - 500 := by
        simp only [List.length_append, List.length_cons, List.length_nil]
        omega
      rw [e2]

/-- **C8.** Pushing `n` lines into an empty buffer leaves exactly the most
recent `min(n, 500)` lines, in push order (the buffer is the original list
with its oldest `n - 500` entries dropped); in particular 600 sequential
lines retain the last 500 in order.  `drain_logs` returns the whole buffer
and leaves it empty. -/
theorem push_log_bound :
    (∀ lines : List String,
      List.foldl push_log [] lines = lines.drop (lines.length - 500)
        ∧ (List.foldl push_log [] lines).length = min lines.length 500)
    ∧ List.foldl push_log [] ((List.range 600).map Nat.repr)
        = ((List.range 600).drop 100).map Nat.repr
    ∧ (∀ logs : List String, drain_logs logs = (logs, [])) := by
  refine ⟨fun lines => ⟨foldl_push_log_eq lines, ?_⟩, ?_, fun _ => rfl⟩
  · rw [foldl_push_log_eq lines]
    simp only [List.length_drop]
    omega
  · rw [foldl_push_log_eq]
    simp [List.map_drop]

/-- Witness for C8: ten pushed lines are all retained, via the theorem at
that concrete input. -/
theorem push_log_bound_witness :
    List.foldl push_log [] ((List.range 10).map Nat.repr)
      = (List.range 10).map Nat.repr := by
  rw [(push_log_bound.1 ((List.range 10).map Nat.repr)).1]
  simp

/-! ### RunningProcess, JobRecord, JobRegistry, ConcurrencyManager
(progress_monitor.rs lines 16-68, job_registry.rs, concurrency.rs) -/

/-- Per-job mutable state (`RunningProcess` in progress_monitor.rs):
a take-once child-handle slot (`Mutex<Option<Child>>`, the handle itself
abstracted to an id), the atomic cancellation and exclusivity flags, and
the bounded log buffer. -/
structure RunningProcess where
  child : Option Nat
  cancelled : Bool
  exclusive : Bool
  logs : List String
deriving Repr, DecidableEq

namespace RunningProcess

/-- `RunningProcess::new(child, exclusive)`. -/
def new (child : Nat) (exclusive : Bool) : RunningProcess :=
  ⟨some child, false, exclusive, []⟩

/-- `RunningProcess::mark_cancelled`. -/
def mark_cancelled (p : RunningProcess) : RunningProcess :=
  { p with cancelled := true }

/-- `RunningProcess::set_exclusive`. -/
def set_exclusive (p : RunningProcess) (b : Bool) : RunningProcess :=
  { p with exclusive := b }

/-- `RunningProcess::push_log` (lifts the buffer operation). -/
def push_log (p : RunningProcess) (line : String) : RunningProcess :=
  { p with logs := Honeymelon.push_log p.logs line }

/-- `RunningProcess::drain_logs`: contents plus emptied state. -/
def drain_logs (p : RunningProcess) : List String × RunningProcess :=
  (p.logs, { p with logs := [] })

end RunningProcess

/-- One registry entry (`JobRecord` in job_registry.rs). -/
structure JobRecord where
  process : RunningProcess
  final_path : String
  temp_path : String
  exclusive : Bool
deriving Repr, DecidableEq

/-- `JobSnapshot` (job_registry.rs): read-only view used by cancellation. -/
structure JobSnapshot where
  process : RunningProcess
  temp_path : String
deriving Repr, DecidableEq

/-- The registry map `job_id → JobRecord`, modelled as an association
list. -/
abbrev Registry := List (String × JobRecord)

namespace JobRegistry

/-- `JobRegistry::register` (job_registry.rs lines 18-55): under one
critical section, duplicate-ID check, new-exclusive check, existing-
exclusive check, ceiling check with `max(limit, 1)`, then insertion. -/
def register (st : Registry) (job_id : String) (record : JobRecord)
    (max_concurrency : Nat) : Except AppError Registry :=
  if st.any (fun p => p.1 == job_id) then
    .error ⟨"job_already_running", "Job " ++ job_id ++ " is already running."⟩
  else if record.exclusive && !st.isEmpty then
    .error ⟨"job_exclusive_blocked",
      "Exclusive job requested while other jobs are active."⟩
  else if st.any (fun p => p.2.exclusive) then
    .error ⟨"job_exclusive_blocked", "Another exclusive job is currently running."⟩
  else if st.length ≥ max max_concurrency 1 then
    .error ⟨"job_concurrency_limit",
      "Concurrency limit reached (" ++ Nat.repr max_concurrency ++ "); defer job start."⟩
  else
    .ok (st ++ [(job_id, record)])

/-- The registry after a `register` call: the inserted state on success,
the untouched original on error (the lock is released, nothing written). -/
def registerOr (st : Registry) (job_id : String) (record : JobRecord)
    (max_concurrency : Nat) : Registry :=
  match register st job_id record max_concurrency with
  | .ok r => r
  | .error _ => st

/-- `JobRegistry::snapshot`: read-only lookup, `None` for unknown ids. -/
def snapshot (st : Registry) (job_id : String) : Option JobSnapshot :=
  (st.find? (fun p => p.1 == job_id)).map (fun p => ⟨p.2.process, p.2.temp_path⟩)

/-- `JobRegistry::remove`: unconditional idempotent deregistration. -/
def remove (st : Registry) (job_id : String) : Registry :=
  st.filter (fun p => p.1 != job_id)

end JobRegistry

namespace ConcurrencyManager

/-- `ConcurrencyManager::new`: initial ceiling 2 (concurrency.rs line 12). -/
def new : Nat := 2

/-- `ConcurrencyManager::get_limit`: the stored value clamped to ≥ 1. -/
def get_limit (st : Nat) : Nat := max st 1

/-- `ConcurrencyManager::set_limit`: store `max(limit, 1)`. -/
def set_limit (_st : Nat) (limit : Nat) : Nat := max limit 1

end ConcurrencyManager

/-! ### The registry/ceiling step system (claim C2) -/

/-- One externally-triggered operation on the shared registry/ceiling
state. -/
inductive RegStep where
  | register (job_id : String) (record : JobRecord)
  | remove (job_id : String)
  | set_limit (n : Nat)
deriving Repr, DecidableEq

/-- The shared state: the registry map and the `ConcurrencyManager`
counter. -/
structure RunnerState where
  registry : Registry
  limit : Nat
deriving Repr, DecidableEq

/-- Fresh coordinator state: empty registry, default ceiling. -/
def initState : RunnerState := ⟨[], ConcurrencyManager.new⟩

/-- Apply one step: `register` is called with the current
`ConcurrencyManager` limit and leaves the state unchanged on admission
error. -/
def applyStep (s : RunnerState) : RegStep → RunnerState
  | .register id rec =>
    ⟨JobRegistry.registerOr s.registry id rec (ConcurrencyManager.get_limit s.limit),
      s.limit⟩
  | .remove id => ⟨JobRegistry.remove s.registry id, s.limit⟩
  | .set_limit n => ⟨s.registry, ConcurrencyManager.set_limit s.limit n⟩

/-- The state reached from the empty registry by a step sequence. -/
def runSteps (steps : List RegStep) : RunnerState :=
  steps.foldl applyStep initState

/-- Invariant (a): no two entries share a `job_id`. -/
def KeysNodup (st : Registry) : Prop := (st.map Prod.fst).Nodup

/-- Invariant (b): an exclusive entry is the only entry. -/
def ExclusiveAlone (st : Registry) : Prop :=
  ∀ p ∈ st, p.2.exclusive = true → st = [p]

/-- Guard for the ceiling invariant: a `set_limit` step never lowers the
ceiling below the current entry count (the code does not enforce this —
see the counterexample). -/
def ceilingSafeFrom (s : RunnerState) : List RegStep → Bool
  | [] => true
  | stp :: rest =>
    (match stp with
     | RegStep.set_limit n => decide (s.registry.length ≤ max n 1)
     | _ => true)
    && ceilingSafeFrom (applyStep s stp) rest

theorem register_ok_facts {st : Registry} {id : String} {rec : JobRecord}
    {lim : Nat} {st' : Registry}
    (h : JobRegistry.register st id rec lim = .ok st') :
    st' = st ++ [(id, rec)]
    ∧ (∀ p ∈ st, ¬p.1 = id)
    ∧ (rec.exclusive = true → st = [])
    ∧ (∀ p ∈ st, ¬p.2.exclusive = true)
    ∧ st.length < max lim 1 := by
  unfold JobRegistry.register at h
  split_ifs at h with h1 h2 h3 h4
  refine ⟨by injection h with h; exact h.symm, ?_, ?_, ?_, by omega⟩
  · intro p hp he
    exact h1 (List.any_eq_true.mpr ⟨p, hp, by simp [he]⟩)
  · intro he
    rcases st with _ | ⟨q, qs⟩
    · rfl
    · exact absurd (by simp [he]) h2
  · intro p hp he
    exact h3 (List.any_eq_true.mpr ⟨p, hp, he⟩)

theorem applyStep_keeps_invariants {s : RunnerState} (stp : RegStep)
    (h1 : KeysNodup s.registry) (h2 : ExclusiveAlone s.registry) :
    KeysNodup (applyStep s stp).registry
      ∧ ExclusiveAlone (applyStep s stp).registry := by
  rcases stp with ⟨id, rec⟩ | id | n
  · simp only [applyStep, JobRegistry.registerOr]
    rcases hr : JobRegistry.register s.registry id rec
        (ConcurrencyManager.get_limit s.limit) with e | st'
    · exact ⟨h1, h2⟩
    · obtain ⟨he, hdup, hexcl, hother, _⟩ := register_ok_facts hr
      subst he
      constructor
      · unfold KeysNodup
        rw [List.map_append]
        refine List.nodup_append.mpr ⟨h1, by simp, ?_⟩
        intro a ha hb
        simp only [List.map_cons, List.map_nil, List.mem_singleton] at hb
        obtain ⟨p, hp, hpa⟩ := List.mem_map.mp ha
        exact hdup p hp (by rw [hpa, hb])
      · intro p hp hpe
        rcases List.mem_append.mp hp with hin | hin
        · exact absurd hpe (hother p hin)
        · simp only [List.mem_singleton] at hin
          subst hin
          simp only at hpe
          rw [hexcl hpe]
          rfl
  · simp only [applyStep]
    constructor
    · exact List.Nodup.sublist (List.Sublist.map _ (List.filter_sublist _)) h1
    · intro p hp hpe
      have hin : p ∈ s.registry := List.mem_of_mem_filter hp
      have hsingle := h2 p hin hpe
      unfold JobRegistry.remove at hp ⊢
      rw [hsingle] at hp ⊢
      cases hq : p.1 != id
      · simp [List.filter_singleton, hq] at hp
      · simp [List.filter_singleton, hq]
  · exact ⟨h1, h2⟩

theorem foldl_keeps_invariants (steps : List RegStep) (s : RunnerState)
    (h1 : KeysNodup s.registry) (h2 : ExclusiveAlone s.registry) :
    KeysNodup (steps.foldl applyStep s).registry
      ∧ ExclusiveAlone (steps.foldl applyStep s).registry := by
  induction steps generalizing s with
  | nil => exact ⟨h1, h2⟩
  | cons stp rest ih =>
    rw [List.foldl_cons]
    obtain ⟨k1, k2⟩ := applyStep_keeps_invariants stp h1 h2
    exact ih _ k1 k2

theorem applyStep_keeps_ceiling {s : RunnerState} {stp : RegStep}
    (h : s.registry.length ≤ ConcurrencyManager.get_limit s.limit)
    (hguard : (match stp with
      | RegStep.set_limit n => decide (s.registry.length ≤ max n 1)
      | _ => true) = true) :
    (applyStep s stp).registry.length
      ≤ ConcurrencyManager.get_limit (applyStep s stp).limit := by
  rcases stp with ⟨id, rec⟩ | id | n
  · simp only [applyStep, JobRegistry.registerOr]
    rcases hr : JobRegistry.register s.registry id rec
        (ConcurrencyManager.get_limit s.limit) with e | st'
    · exact h
    · obtain ⟨he, -, -, -, hlen⟩ := register_ok_facts hr
      subst he
      simp only [List.length_append, List.length_cons, List.length_nil]
      have : max (ConcurrencyManager.get_limit s.limit) 1
          = ConcurrencyManager.get_limit s.limit := by
        unfold ConcurrencyManager.get_limit
        omega
      omega
  · simp only [applyStep]
    exact le_trans (List.length_filter_le _ _) h
  · simp only [applyStep, ConcurrencyManager.set_limit,
      ConcurrencyManager.get_limit]
    simp only [decide_eq_true_eq] at hguard
    omega

theorem foldl_keeps_ceiling (steps : List RegStep) (s : RunnerState)
    (h : s.registry.length ≤ ConcurrencyManager.get_limit s.limit)
    (hsafe : ceilingSafeFrom s steps = true) :
    (steps.foldl applyStep s).registry.length
      ≤ ConcurrencyManager.get_limit ((steps.foldl applyStep s).limit) := by
  induction steps generalizing s with
  | nil => exact h
  | cons stp rest ih =>
    rw [List.foldl_cons]
    unfold ceilingSafeFrom at hsafe
    rw [Bool.and_eq_true] at hsafe
    exact ih _ (applyStep_keeps_ceiling h hsafe.1) hsafe.2

/-- A plain (non-exclusive) record used by the concrete step traces. -/
def recPlain : JobRecord := ⟨RunningProcess.new 0 false, "", "", false⟩

/-- Trace refuting invariant (c) as claimed: two jobs admitted under the
default ceiling 2, then `set_limit 1`. -/
def ceilingDemo : List RegStep :=
  [RegStep.register "a" recPlain, RegStep.register "b" recPlain,
    RegStep.set_limit 1]

/-- Counterexample for C2: after `register "a"`, `register "b"` (both
admitted under the default ceiling 2) and `set_limit 1`, the reachable
state holds 2 entries while the current ceiling is 1, so the entry count
exceeds the ceiling. -/
theorem registry_ceiling_counterexample :
    (runSteps ceilingDemo).registry.length = 2
      ∧ ConcurrencyManager.get_limit (runSteps ceilingDemo).limit = 1
      ∧ ¬((runSteps ceilingDemo).registry.length
          ≤ ConcurrencyManager.get_limit (runSteps ceilingDemo).limit) := by
  refine ⟨by decide, by decide, by decide⟩

/-- **C2 (amended).** In every state reachable from the empty registry by
`register` (called with the current `ConcurrencyManager` limit), `remove`
and `set_limit` steps: (a) no two entries share a `job_id`; (b) an
exclusive entry is always the only entry.  (c) the entry count never
exceeds the current ceiling PROVIDED no `set_limit` step lowers the
ceiling below the entry count at that moment (`ceilingSafeFrom`); a
`set_limit` below the live count breaks (c), as the counterexample
shows. -/
theorem registry_reachable_invariants :
    (∀ steps : List RegStep,
      KeysNodup (runSteps steps).registry
        ∧ ExclusiveAlone (runSteps steps).registry)
    ∧ (∀ steps : List RegStep, ceilingSafeFrom initState steps = true →
      (runSteps steps).registry.length
        ≤ ConcurrencyManager.get_limit (runSteps steps).limit) := by
  constructor
  · intro steps
    exact foldl_keeps_invariants steps initState (by simp [initState, KeysNodup])
      (by intro p hp; cases hp)
  · intro steps hsafe
    exact foldl_keeps_ceiling steps initState (by simp [initState]) hsafe

/-- Witness for C2: the trace `register "a"; set_limit 1` keeps the
ceiling guard satisfied, and the theorem yields `count ≤ ceiling` for the
resulting state. -/
theorem registry_reachable_invariants_witness :
    (runSteps [RegStep.register "a" recPlain, RegStep.set_limit 1]).registry.length
      ≤ ConcurrencyManager.get_limit
        (runSteps [RegStep.register "a" recPlain, RegStep.set_limit 1]).limit :=
  registry_reachable_invariants.2
    [RegStep.register "a" recPlain, RegStep.set_limit 1] (by decide)

/-- **C3.** `JobRegistry::register` performs its checks in order —
duplicate id (`job_already_running`), new-exclusive-while-others-active
(`job_exclusive_blocked`), existing-exclusive (`job_exclusive_blocked`),
ceiling with `max(limit, 1)` (`job_concurrency_limit`) — reporting the
first failing check, leaving the registry unchanged on any error, and
inserting the entry on success. -/
theorem register_check_order (st : Registry) (id : String) (rec : JobRecord)
    (lim : Nat) :
    ((∃ p ∈ st, p.1 = id) →
      errCode (JobRegistry.register st id rec lim) = some "job_already_running")
    ∧ ((¬∃ p ∈ st, p.1 = id) → rec.exclusive = true → st ≠ [] →
      errCode (JobRegistry.register st id rec lim) = some "job_exclusive_blocked")
    ∧ ((¬∃ p ∈ st, p.1 = id) → ¬(rec.exclusive = true ∧ st ≠ []) →
      (∃ p ∈ st, p.2.exclusive = true) →
      errCode (JobRegistry.register st id rec lim) = some "job_exclusive_blocked")
    ∧ ((¬∃ p ∈ st, p.1 = id) → ¬(rec.exclusive = true ∧ st ≠ []) →
      (¬∃ p ∈ st, p.2.exclusive = true) → st.length ≥ max lim 1 →
      errCode (JobRegistry.register st id rec lim) = some "job_concurrency_limit")
    ∧ ((¬∃ p ∈ st, p.1 = id) → ¬(rec.exclusive = true ∧ st ≠ []) →
      (¬∃ p ∈ st, p.2.exclusive = true) → st.length < max lim 1 →
      JobRegistry.register st id rec lim = .ok (st ++ [(id, rec)]))
    ∧ (∀ e, JobRegistry.register st id rec lim = .error e →
      JobRegistry.registerOr st id rec lim = st) := by
  have hdup : st.any (fun p => p.1 == id) = true ↔ ∃ p ∈ st, p.1 = id := by
    rw [List.any_eq_true]
    simp
  have hexc : st.any (fun p => p.2.exclusive) = true ↔ ∃ p ∈ st, p.2.exclusive = true := by
    rw [List.any_eq_true]
  have hne : (rec.exclusive && !st.isEmpty) = true ↔ (rec.exclusive = true ∧ st ≠ []) := by
    simp [List.isEmpty_iff]
  refine ⟨?_, ?_, ?_, ?_, ?_, ?_⟩
  · intro h
    unfold JobRegistry.register
    rw [if_pos (hdup.mpr h)]
    rfl
  · intro h he hn
    unfold JobRegistry.register
    rw [if_neg (fun c => h (hdup.mp c)), if_pos (hne.mpr ⟨he, hn⟩)]
    rfl
  · intro h1 h2 h3
    unfold JobRegistry.register
    rw [if_neg (fun c => h1 (hdup.mp c)), if_neg (fun c => h2 (hne.mp c)),
      if_pos (hexc.mpr h3)]
    rfl
  · intro h1 h2 h3 h4
    unfold JobRegistry.register
    rw [if_neg (fun c => h1 (hdup.mp c)), if_neg (fun c => h2 (hne.mp c)),
      if_neg (fun c => h3 (hexc.mp c)), if_pos h4]
    rfl
  · intro h1 h2 h3 h4
    unfold JobRegistry.register
    rw [if_neg (fun c => h1 (hdup.mp c)), if_neg (fun c => h2 (hne.mp c)),
      if_neg (fun c => h3 (hexc.mp c)), if_neg (by omega)]
  · intro e he
    unfold JobRegistry.registerOr
    rw [he]

/-- Witness for C3: on the empty registry the fresh job `"a"` passes every
check and is inserted, via the success conjunct of the theorem. -/
theorem register_check_order_witness :
    JobRegistry.register [] "a" recPlain 2 = .ok [("a", recPlain)] := by
  have h := (register_check_order [] "a" recPlain 2).2.2.2.2.1
    (by simp) (by simp) (by simp) (by decide)
  simpa using h

/-! ### Filesystem model and OutputManager (output_manager.rs) -/

/-- Filesystem state: an association list from path to file content. -/
abbrev FS := List (String × String)

/-- Content at a path, `none` when no file exists there. -/
def fsLookup (fs : FS) (p : String) : Option String :=
  (fs.find? (fun e => e.1 == p)).map (fun e => e.2)

/-- Rust `Path::exists`. -/
def fsHas (fs : FS) (p : String) : Bool :=
  (fs.find? (fun e => e.1 == p)).isSome

/-- `fs::remove_file` on the model.  The deletions output_manager.rs
performs are best-effort (`let _ = fs::remove_file(..)`); the model lets
them succeed. -/
def fsRemove (fs : FS) (p : String) : FS :=
  fs.filter (fun e => e.1 != p)

/-- Create/overwrite a file with the given content. -/
def fsWrite (fs : FS) (p : String) (content : String) : FS :=
  fsRemove fs p ++ [(p, content)]

theorem fsLookup_fsRemove_self (fs : FS) (p : String) :
    fsLookup (fsRemove fs p) p = none := by
  unfold fsLookup fsRemove
  rw [List.find?_eq_none.mpr]
  · rfl
  · intro e he
    have := (List.mem_filter.mp he).2
    simp only [bne_iff_ne, ne_eq, decide_eq_true_eq] at this
    simp [this]

theorem fsLookup_fsRemove_ne (fs : FS) {p q : String} (h : q ≠ p) :
    fsLookup (fsRemove fs p) q = fsLookup fs q := by
  induction fs with
  | nil => rfl
  | cons e rest ih =>
    unfold fsLookup fsRemove at ih ⊢
    rw [List.filter_cons]
    by_cases hp : (e.1 != p) = true
    · rw [if_pos hp]
      cases hq : (e.1 == q) with
      | true => simp only [List.find?, hq]
      | false => simpa only [List.find?, hq] using ih
    · rw [if_neg hp]
      have he : e.1 = p := by simpa using hp
      have hq : (e.1 == q) = false := by
        simp only [beq_eq_false_iff_ne, ne_eq, he]
        exact fun c => h c.symm
      simp only [List.find?, hq]
      exact ih

theorem fsLookup_eq_none_of_not_has {fs : FS} {p : String}
    (h : fsHas fs p = false) : fsLookup fs p = none := by
  unfold fsHas at h
  unfold fsLookup
  rcases hf : fs.find? (fun e => e.1 == p) with _ | e
  · rw [hf]; rfl
  · rw [hf] at h; cases h

namespace OutputManager

/-- `OutputManager::finalize` (output_manager.rs lines 66-81): best-effort
removal of any existing final file, then `fs::rename(temp, final)`;
on rename failure the temp file is best-effort deleted and
`job_finalize_failed` returned.  `renameOk` is the OS oracle for the one
fallible call the code checks (`fs::rename`), which also fails when the
source file is absent. -/
def finalize (fs : FS) (temp_path final_path : String) (renameOk : Bool) :
    FS × Except AppError Unit :=
  let fs1 := if fsHas fs final_path then fsRemove fs final_path else fs
  match fsLookup fs1 temp_path with
  | some content =>
    if renameOk then
      (fsWrite (fsRemove fs1 temp_path) final_path content, .ok ())
    else
      (fsRemove fs1 temp_path,
        .error ⟨"job_finalize_failed", "Failed to finalize output file"⟩)
  | none =>
    (fsRemove fs1 temp_path,
      .error ⟨"job_finalize_failed", "Failed to finalize output file"⟩)

/-- `OutputManager::cleanup_temp`: best-effort deletion of the temp
file. -/
def cleanup_temp (fs : FS) (temp_path : String) : FS :=
  fsRemove fs temp_path

end OutputManager

/-- Counterexample for C1: with a pre-existing final file `"out.mp4"`
holding `"old"` and a complete temp file, a failing rename makes
`finalize` return `job_finalize_failed` — and the pre-existing final file
is gone (the code removed it before attempting the rename), not "still
present with its pre-call content". -/
theorem finalize_not_preserving_final :
    errCode (OutputManager.finalize
      [("out.mp4", "old"), ("out.mp4.tmp", "new")] "out.mp4.tmp" "out.mp4" false).2
      = some "job_finalize_failed"
    ∧ fsLookup [("out.mp4", "old"), ("out.mp4.tmp", "new")] "out.mp4" = some "old"
    ∧ fsLookup (OutputManager.finalize
      [("out.mp4", "old"), ("out.mp4.tmp", "new")] "out.mp4.tmp" "out.mp4" false).1
      "out.mp4" = none := ⟨by decide, by decide, by decide⟩

/-- **C1 (amended).** If `finalize` returns an error, afterwards no file
exists at the temp path and no file exists at the final path either: a
pre-existing final file is removed by the best-effort delete before the
rename, so the final path never holds a partially-written file, but its
prior content is NOT preserved across a failed finalize.  On the
non-success paths that skip finalize, `cleanup_temp` deletes the temp
file and leaves the final path exactly as it was. -/
theorem finalize_error_state (fs : FS) (temp final : String) (renameOk : Bool) :
    (∀ e, (OutputManager.finalize fs temp final renameOk).2 = .error e →
      e.code = "job_finalize_failed"
        ∧ fsLookup (OutputManager.finalize fs temp final renameOk).1 temp = none
        ∧ fsLookup (OutputManager.finalize fs temp final renameOk).1 final = none)
    ∧ (temp ≠ final →
      fsLookup (OutputManager.cleanup_temp fs temp) final = fsLookup fs final)
    ∧ fsLookup (OutputManager.cleanup_temp fs temp) temp = none := by
  refine ⟨?_, ?_, ?_⟩
  · have hfinal1 : fsLookup (if fsHas fs final then fsRemove fs final else fs) final
        = none := by
      by_cases hh : fsHas fs final
      · rw [if_pos hh]
        exact fsLookup_fsRemove_self fs final
      · rw [if_neg hh]
        exact fsLookup_eq_none_of_not_has (by simpa using hh)
    simp only [OutputManager.finalize]
    rcases ht : fsLookup (if fsHas fs final then fsRemove fs final else fs) temp
        with _ | content
    · intro e he
      have he' : AppError.mk "job_finalize_failed" "Failed to finalize output file"
          = e := by
        injection he
      refine ⟨by rw [← he'], fsLookup_fsRemove_self _ _, ?_⟩
      by_cases hq : final = temp
      · rw [hq]; exact fsLookup_fsRemove_self _ _
      · exact (fsLookup_fsRemove_ne _ hq).trans hfinal1
    · rcases renameOk with _ | _
      · intro e he
        have he' : AppError.mk "job_finalize_failed" "Failed to finalize output file"
            = e := by
          injection he
        refine ⟨by rw [← he'], fsLookup_fsRemove_self _ _, ?_⟩
        by_cases hq : final = temp
        · rw [hq]; exact fsLookup_fsRemove_self _ _
        · exact (fsLookup_fsRemove_ne _ hq).trans hfinal1
      · intro e he
        simp at he
  · intro hne
    exact fsLookup_fsRemove_ne fs (fun c => hne c.symm)
  · exact fsLookup_fsRemove_self fs temp

/-- Witness for C1: at the counterexample's input the amended theorem
yields "temp gone" after the failed finalize. -/
theorem finalize_error_state_witness :
    fsLookup (OutputManager.finalize
      [("out.mp4", "old"), ("out.mp4.tmp", "new")] "out.mp4.tmp" "out.mp4" false).1
      "out.mp4.tmp" = none :=
  ((finalize_error_state [("out.mp4", "old"), ("out.mp4.tmp", "new")]
    "out.mp4.tmp" "out.mp4" false).1
    ⟨"job_finalize_failed", "Failed to finalize output file"⟩ rfl).2.1

/-! ### Events and completion handling (events.rs, progress_monitor.rs
lines 74-230) -/

/-- `ProgressPayload` (events.rs). -/
structure ProgressPayload where
  job_id : String
  progress : Option ProgressMetrics
  raw : String
deriving Repr, DecidableEq

/-- `CompletionPayload` (events.rs). -/
structure CompletionPayload where
  job_id : String
  success : Bool
  cancelled : Bool
  exit_code : Option Int
  signal : Option Int
  code : String
  message : Option String
  logs : List String
deriving Repr, DecidableEq

/-- One emission through the `Emitter` abstraction. -/
inductive Event where
  | stderrLine (job_id : String) (line : String)
  | progress (payload : ProgressPayload)
  | completion (payload : CompletionPayload)
deriving Repr, DecidableEq

/-- Whether an event is the completion event. -/
def Event.isCompletion : Event → Bool
  | .completion _ => true
  | _ => false

/-- Rust `std::process::ExitStatus` as observed by the monitor:
`success()`, `code()`, and the POSIX terminating signal. -/
structure ExitStatus where
  success : Bool
  code : Option Int
  signal : Option Int
deriving Repr, DecidableEq

namespace ProgressMonitor

/-- `ProgressMonitor::wait_for_exit` (progress_monitor.rs lines 218-230):
take the child handle (emptying the slot); a missing handle is
`job_missing_child`, an OS-level wait failure (`osWait` oracle) is
`job_wait_failed`. -/
def wait_for_exit (job_id : String) (p : RunningProcess)
    (osWait : Except String ExitStatus) :
    Except AppError ExitStatus × RunningProcess :=
  match p.child with
  | none =>
    (.error ⟨"job_missing_child", "Job " ++ job_id ++ " missing child process handle."⟩, p)
  | some _ =>
    (match osWait with
     | .ok s => .ok s
     | .error m => .error ⟨"job_wait_failed", m⟩,
     { p with child := none })

/-- `ProgressMonitor::explain_ffmpeg_exit_code` (progress_monitor.rs
lines 292-299). -/
def explain_ffmpeg_exit_code (code : Int) : Option String :=
  if code = 1 then some "Encoding failed. Check input file format and codec support."
  else if code = 2 then some "Invalid FFmpeg arguments. Please report this issue."
  else if code = 69 then some "Output file already exists and cannot be overwritten."
  else none

/-- Intermediate of `handle_completion` after the wait (the
`(mut success, exit_code, signal)` destructuring plus the override
variables, the pushed log and the emitted wait-error progress event). -/
structure WaitStage where
  success : Bool
  exit_code : Option Int
  signal : Option Int
  code_override : Option String
  message_override : Option String
  process : RunningProcess
  events : List Event
deriving Repr, DecidableEq

/-- `ProgressMonitor::handle_completion` (progress_monitor.rs lines
133-216), as a function of the per-job state, the filesystem, the rename
oracle and the OS wait outcome.  Returns the completion payload, the
final process state (buffer drained, exclusivity cleared), the final
filesystem, and the events emitted during completion handling (the
completion event last). -/
def handle_completion (job_id : String) (process0 : RunningProcess)
    (fs : FS) (final_path temp_path : String) (renameOk : Bool)
    (osWait : Except String ExitStatus) :
    CompletionPayload × RunningProcess × FS × List Event :=
  let w := wait_for_exit job_id process0 osWait
  let cancelled := w.2.cancelled
  let st : WaitStage :=
    match w.1 with
    | .ok status =>
      ⟨status.success && !cancelled, status.code, status.signal, none, none, w.2, []⟩
    | .error err =>
      let detail := "ffmpeg wait error: " ++ err.message
      ⟨false, none, none, some err.code, some detail, w.2.push_log detail,
        [Event.progress ⟨job_id, none, detail⟩]⟩
  let code0 : String :=
    match st.code_override with
    | some c => c
    | none =>
      if cancelled then "job_cancelled"
      else if st.success then "job_complete"
      else "job_failed"
  let fin : Bool × String × Option String × RunningProcess × FS :=
    if st.success && !cancelled then
      let r := OutputManager.finalize fs temp_path final_path renameOk
      match r.2 with
      | .ok _ => (st.success, code0, st.message_override, st.process, r.1)
      | .error err =>
        (false, err.code, some err.message, st.process.push_log err.message, r.1)
    else
      (st.success, code0, st.message_override, st.process,
        OutputManager.cleanup_temp fs temp_path)
  let success := fin.1
  let code := fin.2.1
  let message := fin.2.2.1
  let process1 := fin.2.2.2.1
  let fs1 := fin.2.2.2.2
  let msged : Option String × RunningProcess :=
    if !success && !cancelled && message.isNone then
      match st.exit_code with
      | some exit =>
        let detail :=
          match explain_ffmpeg_exit_code exit with
          | some explanation =>
            "ffmpeg exited with status " ++ toString exit ++ ": " ++ explanation
          | none => "ffmpeg exited with status " ++ toString exit
        (some detail, process1.push_log detail)
      | none => (message, process1)
    else (message, process1)
  let d := msged.2.drain_logs
  let payload : CompletionPayload :=
    ⟨job_id, success, cancelled, st.exit_code, st.signal, code, msged.1, d.1⟩
  (payload, d.2.set_exclusive false, fs1, st.events ++ [Event.completion payload])

/-- The tail of the supervising task spawned by `ProgressMonitor::start`
(progress_monitor.rs lines 84-88): completion handling, then
deregistration. -/
def completion_sequence (registry : Registry) (job_id : String)
    (process0 : RunningProcess) (fs : FS) (final_path temp_path : String)
    (renameOk : Bool) (osWait : Except String ExitStatus) :
    (CompletionPayload × RunningProcess × FS × List Event) × Registry :=
  (handle_completion job_id process0 fs final_path temp_path renameOk osWait,
    JobRegistry.remove registry job_id)

end ProgressMonitor

theorem finalize_err_code {fs : FS} {temp final : String} {renameOk : Bool}
    {err : AppError}
    (h : (OutputManager.finalize fs temp final renameOk).2 = .error err) :
    err.code = "job_finalize_failed" := by
  simp only [OutputManager.finalize] at h
  rcases ht : fsLookup (if fsHas fs final then fsRemove fs final else fs) temp
      with _ | content
  · rw [ht] at h
    have h1 : AppError.mk "job_finalize_failed" "Failed to finalize output file"
        = err := by injection h
    rw [← h1]
  · rw [ht] at h
    rcases renameOk with _ | _
    · have h1 : AppError.mk "job_finalize_failed" "Failed to finalize output file"
          = err := by injection h
      rw [← h1]
    · simp at h

theorem snapshot_remove_self (st : Registry) (id : String) :
    JobRegistry.snapshot (JobRegistry.remove st id) id = none := by
  unfold JobRegistry.snapshot JobRegistry.remove
  rw [List.find?_eq_none.mpr]
  · rfl
  · intro e he
    have := (List.mem_filter.mp he).2
    simp only [bne_iff_ne, ne_eq, decide_eq_true_eq] at this
    simp [this]

/-- **C4.** After the child exits (or the wait fails), completion handling
emits exactly one completion event and it is the final event; the payload
carries `cancelled` = the process's cancellation flag,
`success = exit_status.success() && !cancelled` forced to `false` on a
wait failure or a finalize failure; the code is `job_missing_child` /
`job_wait_failed` on wait failure, else `job_cancelled` when cancelled,
else `job_complete` on success, else `job_failed`, with a finalize failure
overriding it to `job_finalize_failed`; the payload's logs are the fully
drained buffer (left empty afterwards, and exactly the pre-wait buffer on
the clean success path); the supervising task deregisters the job as part
of this completion sequence. -/
theorem handle_completion_spec (job_id : String) (process0 : RunningProcess)
    (fs : FS) (final temp : String) (renameOk : Bool)
    (osWait : Except String ExitStatus) (registry : Registry) :
    ∀ pc, pc = ProgressMonitor.handle_completion job_id process0 fs final temp
        renameOk osWait →
      (pc.2.2.2.filter Event.isCompletion = [Event.completion pc.1]
        ∧ pc.2.2.2.getLast? = some (Event.completion pc.1))
      ∧ pc.1.cancelled = process0.cancelled
      ∧ pc.2.1.logs = []
      ∧ (process0.child = none →
        pc.1.success = false ∧ pc.1.code = "job_missing_child")
      ∧ (∀ ch m, process0.child = some ch → osWait = .error m →
        pc.1.success = false ∧ pc.1.code = "job_wait_failed")
      ∧ (∀ ch s, process0.child = some ch → osWait = .ok s →
        process0.cancelled = true →
        pc.1.success = false ∧ pc.1.cancelled = true ∧ pc.1.code = "job_cancelled")
      ∧ (∀ ch s, process0.child = some ch → osWait = .ok s →
        process0.cancelled = false → s.success = false →
        pc.1.success = false ∧ pc.1.code = "job_failed")
      ∧ (∀ ch s, process0.child = some ch → osWait = .ok s →
        process0.cancelled = false → s.success = true →
        (OutputManager.finalize fs temp final renameOk).2 = .ok () →
        pc.1.success = true ∧ pc.1.code = "job_complete"
          ∧ pc.1.logs = process0.logs)
      ∧ (∀ ch s err, process0.child = some ch → osWait = .ok s →
        process0.cancelled = false → s.success = true →
        (OutputManager.finalize fs temp final renameOk).2 = .error err →
        pc.1.success = false ∧ pc.1.code = "job_finalize_failed")
      ∧ ((ProgressMonitor.completion_sequence registry job_id process0 fs final
          temp renameOk osWait).2 = JobRegistry.remove registry job_id
        ∧ JobRegistry.snapshot (JobRegistry.remove registry job_id) job_id
          = none) := by
  intro pc hpc
  subst hpc
  refine ⟨?_, ?_, rfl, ?_, ?_, ?_, ?_, ?_, ?_, rfl, snapshot_remove_self registry job_id⟩
  · rcases hchild : process0.child with _ | ch
    · simp [ProgressMonitor.handle_completion, ProgressMonitor.wait_for_exit,
        hchild, Event.isCompletion]
    · rcases osWait with m | s
      · simp [ProgressMonitor.handle_completion, ProgressMonitor.wait_for_exit,
          hchild, Event.isCompletion]
      · simp [ProgressMonitor.handle_completion, ProgressMonitor.wait_for_exit,
          hchild, Event.isCompletion]
  · rcases hchild : process0.child with _ | ch
    · simp [ProgressMonitor.handle_completion, ProgressMonitor.wait_for_exit, hchild]
    · rcases osWait with m | s <;>
        simp [ProgressMonitor.handle_completion, ProgressMonitor.wait_for_exit, hchild]
  · intro hchild
    simp [ProgressMonitor.handle_completion, ProgressMonitor.wait_for_exit, hchild]
  · intro ch m hchild hw
    subst hw
    simp [ProgressMonitor.handle_completion, ProgressMonitor.wait_for_exit, hchild]
  · intro ch s hchild hw hcan
    subst hw
    simp [ProgressMonitor.handle_completion, ProgressMonitor.wait_for_exit,
      hchild, hcan]
  · intro ch s hchild hw hcan hs
    subst hw
    simp [ProgressMonitor.handle_completion, ProgressMonitor.wait_for_exit,
      hchild, hcan, hs]
  · intro ch s hchild hw hcan hs hfin
    subst hw
    simp [ProgressMonitor.handle_completion, ProgressMonitor.wait_for_exit,
      hchild, hcan, hs, hfin, RunningProcess.drain_logs,
      RunningProcess.set_exclusive]
  · intro ch s err hchild hw hcan hs hfin
    subst hw
    have hcode := finalize_err_code hfin
    simp [ProgressMonitor.handle_completion, ProgressMonitor.wait_for_exit,
      hchild, hcan, hs, hfin, hcode]

/-- Witness for C4: a missing child handle yields an unsuccessful
completion with code `job_missing_child`, via the theorem at a concrete
process state. -/
theorem handle_completion_spec_witness :
    (ProgressMonitor.handle_completion "j" ⟨none, false, false, []⟩ [] "f" "t"
      true (.ok ⟨true, some 0, none⟩)).1.success = false
    ∧ (ProgressMonitor.handle_completion "j" ⟨none, false, false, []⟩ [] "f" "t"
      true (.ok ⟨true, some 0, none⟩)).1.code = "job_missing_child" :=
  (handle_completion_spec "j" ⟨none, false, false, []⟩ [] "f" "t" true
    (.ok ⟨true, some 0, none⟩) [] _ rfl).2.2.2.1 rfl

/-! ### JobCoordinator::cancel_job (coordinator.rs lines 76-96) -/

/-- Marking the snapshotted process cancelled writes through the shared
`Arc<RunningProcess>`, so the registry's record sees the flag too. -/
def registryMarkCancelled (st : Registry) (job_id : String) : Registry :=
  st.map (fun p =>
    if p.1 == job_id then (p.1, { p.2 with process := p.2.process.mark_cancelled })
    else p)

namespace JobCoordinator

/-- `JobCoordinator::cancel_job`: unknown id → `Ok(false)`; otherwise mark
cancelled, and if the child handle is still present kill it (`killOk` is
the OS oracle; failure is `job_cancel_failed`), clean up the temp file,
deregister and return `Ok(true)`; if the handle was already consumed,
return `Ok(false)`.  Returns (registry, filesystem, result). -/
def cancel_job (st : Registry) (fs : FS) (job_id : String) (killOk : Bool) :
    Registry × FS × Except AppError Bool :=
  match JobRegistry.snapshot st job_id with
  | none => (st, fs, .ok false)
  | some snap =>
    let st1 := registryMarkCancelled st job_id
    match snap.process.child with
    | some _ =>
      if killOk then
        (JobRegistry.remove st1 job_id,
          OutputManager.cleanup_temp fs snap.temp_path, .ok true)
      else
        (st1, fs, .error ⟨"job_cancel_failed", "Failed to cancel job " ++ job_id⟩)
    | none => (st1, fs, .ok false)

end JobCoordinator

theorem snapshot_markCancelled (st : Registry) (id : String) :
    JobRegistry.snapshot (registryMarkCancelled st id) id
      = (JobRegistry.snapshot st id).map
          (fun snap => ⟨snap.process.mark_cancelled, snap.temp_path⟩) := by
  induction st with
  | nil => rfl
  | cons e rest ih =>
    unfold JobRegistry.snapshot registryMarkCancelled at ih ⊢
    cases hq : (e.1 == id) with
    | true => simp [List.find?, hq]
    | false => simpa [List.find?, hq] using ih

/-- A registered job whose child handle was already consumed by the
monitor's wait: reachable while the job is still registered, since
deregistration happens only after completion handling. -/
def procNoChild : RunningProcess := ⟨none, false, false, []⟩

/-- Registry record for `procNoChild`. -/
def recNoChild : JobRecord := ⟨procNoChild, "f", "t", false⟩

/-- Counterexample for C5: the job `"j"` is registered (snapshot finds
it), yet `cancel_job` returns `Ok(false)` — not `Ok(true)` — because the
child-handle slot is empty. -/
theorem cancel_job_counterexample :
    (JobRegistry.snapshot [("j", recNoChild)] "j").isSome = true
    ∧ (JobCoordinator.cancel_job [("j", recNoChild)] [] "j" true).2.2
      = .ok false := ⟨rfl, rfl⟩

/-- **C5 (amended).** `cancel_job` on an unknown id returns `Ok(false)`
without error and changes nothing.  On a registered job whose child handle
is still present it marks the process cancelled, kills the child (a kill
failure surfaces as `job_cancel_failed`), deletes the temp file,
deregisters, and returns `Ok(true)`.  If the registered job's handle was
already consumed by the monitor's wait, it only marks the cancellation
flag and returns `Ok(false)`.  A process whose cancellation flag is set
always completes with `cancelled = true` and `success = false`, regardless
of the raw exit status. -/
theorem cancel_job_spec (st : Registry) (fs : FS) (job_id : String)
    (killOk : Bool) :
    (JobRegistry.snapshot st job_id = none →
      JobCoordinator.cancel_job st fs job_id killOk = (st, fs, .ok false))
    ∧ (∀ snap ch, JobRegistry.snapshot st job_id = some snap →
      snap.process.child = some ch → killOk = true →
      JobCoordinator.cancel_job st fs job_id killOk
        = (JobRegistry.remove (registryMarkCancelled st job_id) job_id,
          OutputManager.cleanup_temp fs snap.temp_path, .ok true)
      ∧ fsLookup (JobCoordinator.cancel_job st fs job_id killOk).2.1
          snap.temp_path = none
      ∧ JobRegistry.snapshot (JobCoordinator.cancel_job st fs job_id killOk).1
          job_id = none)
    ∧ (∀ snap ch, JobRegistry.snapshot st job_id = some snap →
      snap.process.child = some ch → killOk = false →
      (JobCoordinator.cancel_job st fs job_id killOk).2.2
        = .error ⟨"job_cancel_failed", "Failed to cancel job " ++ job_id⟩)
    ∧ (∀ snap, JobRegistry.snapshot st job_id = some snap →
      snap.process.child = none →
      JobCoordinator.cancel_job st fs job_id killOk
        = (registryMarkCancelled st job_id, fs, .ok false))
    ∧ (∀ snap, JobRegistry.snapshot st job_id = some snap →
      JobRegistry.snapshot (registryMarkCancelled st job_id) job_id
        = some ⟨snap.process.mark_cancelled, snap.temp_path⟩)
    ∧ (∀ (p : RunningProcess) (fs' : FS) (fp tp : String) (rOk : Bool)
        (osWait : Except String ExitStatus), p.cancelled = true →
      (ProgressMonitor.handle_completion job_id p fs' fp tp rOk osWait).1.cancelled
        = true
      ∧ (ProgressMonitor.handle_completion job_id p fs' fp tp rOk osWait).1.success
        = false) := by
  refine ⟨?_, ?_, ?_, ?_, ?_, ?_⟩
  · intro hsnap
    simp [JobCoordinator.cancel_job, hsnap]
  · intro snap ch hsnap hch hk
    subst hk
    refine ⟨by simp [JobCoordinator.cancel_job, hsnap, hch], ?_, ?_⟩
    · simp only [JobCoordinator.cancel_job, hsnap, hch, if_true]
      exact fsLookup_fsRemove_self fs snap.temp_path
    · simp only [JobCoordinator.cancel_job, hsnap, hch, if_true]
      exact snapshot_remove_self _ job_id
  · intro snap ch hsnap hch hk
    subst hk
    simp [JobCoordinator.cancel_job, hsnap, hch]
  · intro snap hsnap hch
    simp [JobCoordinator.cancel_job, hsnap, hch]
  · intro snap hsnap
    rw [snapshot_markCancelled, hsnap]
    rfl
  · intro p fs' fp tp rOk osWait hcan
    rcases hchild : p.child with _ | ch
    · constructor <;>
        simp [ProgressMonitor.handle_completion, ProgressMonitor.wait_for_exit,
          hchild, hcan]
    · rcases osWait with m | s <;> constructor <;>
        simp [ProgressMonitor.handle_completion, ProgressMonitor.wait_for_exit,
          hchild, hcan]

/-- Witness for C5: cancelling the unknown id `"nope"` on an empty
registry returns `Ok(false)` untouched, via the theorem. -/
theorem cancel_job_spec_witness :
    JobCoordinator.cancel_job [] [] "nope" true = ([], [], .ok false) :=
  (cancel_job_spec [] [] "nope" true).1 rfl

/-! ### Binary resolution (binary_resolver.rs, process_spawner.rs) -/

/-- The filesystem metadata `is_valid_binary` inspects. -/
structure FileMeta where
  size : Nat
  mode : Nat
  isFile : Bool
deriving Repr, DecidableEq

/-- The environment binary resolution reads: the env-var override value,
`CARGO_MANIFEST_DIR`, the packaged-app resource dir (absent outside a
bundle), and per-path metadata (`none` = absent or unreadable). -/
structure ResolveEnv where
  envOverride : Option String
  manifestDir : String
  resourceDir : Option String
  meta : String → Option FileMeta

/-- `is_valid_binary` (binary_resolver.rs lines 125-152): the path must
exist with readable metadata, be a regular file, and (Unix) have an
execute bit set.  (No size check is performed.) -/
def is_valid_binary (env : ResolveEnv) (path : String) : Bool :=
  match env.meta path with
  | none => false
  | some m => m.isFile && (m.mode &&& 0o111 != 0)

/-- `push_if_valid` (binary_resolver.rs lines 112-116). -/
def push_if_valid (env : ResolveEnv) (list : List String) (path : String) :
    List String :=
  if is_valid_binary env path then list ++ [path] else list

/-- `resolve_binary_paths` (binary_resolver.rs lines 70-95): env-var
override, then the development-tree `bin/` copy, then the packaged
resource `bin/` copy — each only if valid — then unconditionally the bare
command name. -/
def resolve_binary_paths (binary_name : String) (env : ResolveEnv) :
    List String :=
  let candidates : List String := []
  let candidates :=
    match env.envOverride with
    | some v => push_if_valid env candidates v
    | none => candidates
  let candidates :=
    push_if_valid env candidates (env.manifestDir ++ "/bin/" ++ binary_name)
  let candidates :=
    match env.resourceDir with
    | some r => push_if_valid env candidates (r ++ "/bin/" ++ binary_name)
    | none => candidates
  candidates ++ [binary_name]

/-- `has_path_separator` (process_spawner.rs lines 59-62). -/
def has_path_separator (value : String) : Bool :=
  value.data.contains '/' || value.data.contains '\\'

/-- `Path::is_absolute`, Unix model: a leading `/`. -/
def is_absolute (value : String) : Bool :=
  match value.data with
  | '/' :: _ => true
  | _ => false

/-- `select_ffmpeg_candidate` (process_spawner.rs lines 41-57): a
candidate with a separator or an absolute path must exist to be chosen; a
bare name is chosen unconditionally. -/
def select_ffmpeg_candidate (env : ResolveEnv) : List String → Option String
  | [] => none
  | c :: rest =>
    if is_absolute c || has_path_separator c then
      if (env.meta c).isSome then some c
      else select_ffmpeg_candidate env rest
    else some c

namespace ProcessSpawner

/-- `ProcessSpawner::resolve_ffmpeg` (process_spawner.rs lines 12-20). -/
def resolve_ffmpeg (env : ResolveEnv) : Except AppError String :=
  match select_ffmpeg_candidate env (resolve_binary_paths "ffmpeg" env) with
  | some p => .ok p
  | none => .error ⟨"job_ffmpeg_not_found", "Unable to locate ffmpeg executable."⟩

end ProcessSpawner

theorem select_concat_bare (env : ResolveEnv) (l : List String) :
    ∃ p, select_ffmpeg_candidate env (l ++ ["ffmpeg"]) = some p := by
  induction l with
  | nil =>
    refine ⟨"ffmpeg", ?_⟩
    simp [select_ffmpeg_candidate, is_absolute, has_path_separator]
  | cons c rest ih =>
    rw [List.cons_append]
    unfold select_ffmpeg_candidate
    by_cases h : (is_absolute c || has_path_separator c) = true
    · rw [if_pos h]
      by_cases he : (env.meta c).isSome
      · exact ⟨c, by rw [if_pos he]⟩
      · rw [if_neg he]
        exact ih
    · rw [if_neg h]
      exact ⟨c, rfl⟩

/-- **C10.** `resolve_ffmpeg` never returns an error: the candidate list
always ends with the bare name `"ffmpeg"`, which `select_ffmpeg_candidate`
accepts unconditionally (no separator, not absolute), so the
`job_ffmpeg_not_found` branch is unreachable in every environment. -/
theorem resolve_ffmpeg_total (env : ResolveEnv) :
    (resolve_binary_paths "ffmpeg" env).getLast? = some "ffmpeg"
    ∧ errCode (ProcessSpawner.resolve_ffmpeg env) = none := by
  constructor
  · exact List.getLast?_concat _
  · unfold ProcessSpawner.resolve_ffmpeg
    obtain ⟨l, hl⟩ : ∃ l, resolve_binary_paths "ffmpeg" env = l ++ ["ffmpeg"] :=
      ⟨_, rfl⟩
    obtain ⟨p, hp⟩ := select_concat_bare env l
    rw [hl, hp]
    rfl

/-- Witness for C10: in an environment with nothing on disk, resolution
still succeeds, via the theorem at that concrete environment. -/
theorem resolve_ffmpeg_total_witness :
    errCode (ProcessSpawner.resolve_ffmpeg ⟨none, "", none, fun _ => none⟩)
      = none :=
  (resolve_ffmpeg_total ⟨none, "", none, fun _ => none⟩).2

theorem push_if_valid_mem (env : ResolveEnv) (acc : List String) (path : String)
    (h : ∀ x ∈ acc, is_valid_binary env x = true) :
    ∀ x ∈ push_if_valid env acc path, is_valid_binary env x = true := by
  intro x hx
  unfold push_if_valid at hx
  by_cases hv : is_valid_binary env path = true
  · rw [if_pos hv] at hx
    rcases List.mem_append.mp hx with h1 | h1
    · exact h x h1
    · rw [List.mem_singleton.mp h1]
      exact hv
  · rw [if_neg hv] at hx
    exact h x hx

theorem resolve_dropLast_valid (name : String) (env : ResolveEnv) :
    ∀ c ∈ (resolve_binary_paths name env).dropLast,
      is_valid_binary env c = true := by
  have h0 : ∀ x ∈ ([] : List String), is_valid_binary env x = true := by
    intro x hx
    cases hx
  intro c hc
  rcases ho : env.envOverride with _ | v <;>
    rcases hr : env.resourceDir with _ | r <;>
    simp only [resolve_binary_paths, ho, hr] at hc <;>
    rw [List.dropLast_concat] at hc
  · exact push_if_valid_mem env _ _ h0 c hc
  · exact push_if_valid_mem env _ _ (push_if_valid_mem env _ _ h0) c hc
  · exact push_if_valid_mem env _ _ (push_if_valid_mem env _ _ h0) c hc
  · exact push_if_valid_mem env _ _
      (push_if_valid_mem env _ _ (push_if_valid_mem env _ _ h0)) c hc

/-- Environment exhibiting an empty yet executable regular file. -/
def envEmptyExe : ResolveEnv :=
  ⟨none, "/src", none,
    fun p => if p = "/opt/ffmpeg" then some ⟨0, 0o755, true⟩ else none⟩

/-- Counterexample for C9: `/opt/ffmpeg` is a zero-byte regular file with
execute permission, and `is_valid_binary` accepts it — refuting "accepted
only if ... non-empty": no emptiness check exists. -/
theorem is_valid_binary_accepts_empty :
    envEmptyExe.meta "/opt/ffmpeg" = some ⟨0, 0o755, true⟩
    ∧ (⟨0, 0o755, true⟩ : FileMeta).size = 0
    ∧ is_valid_binary envEmptyExe "/opt/ffmpeg" = true := by
  refine ⟨by simp [envEmptyExe], rfl, by simp [is_valid_binary, envEmptyExe]⟩

/-- **C9 (amended).** Binary resolution tries candidates in the order
env-var override, development-tree path, packaged resource path, bare
command name; each filesystem candidate is accepted only if it exists
(with readable metadata), is a regular file, and has an execute permission
bit — file size is NOT checked, so an empty executable is accepted — while
the bare name is always appended last with no filesystem validation, so
list production itself never fails. -/
theorem binary_resolution_spec (name : String) (env : ResolveEnv) :
    (∀ p, is_valid_binary env p = true ↔
      ∃ m, env.meta p = some m ∧ m.isFile = true ∧ m.mode &&& 0o111 ≠ 0)
    ∧ resolve_binary_paths name env
      = (match env.envOverride with
         | some v => if is_valid_binary env v then [v] else []
         | none => []) ++
        ((if is_valid_binary env (env.manifestDir ++ "/bin/" ++ name)
          then [env.manifestDir ++ "/bin/" ++ name] else []) ++
        ((match env.resourceDir with
          | some r => if is_valid_binary env (r ++ "/bin/" ++ name)
            then [r ++ "/bin/" ++ name] else []
          | none => []) ++ [name]))
    ∧ (∀ c ∈ (resolve_binary_paths name env).dropLast,
      is_valid_binary env c = true)
    ∧ (resolve_binary_paths name env).getLast? = some name := by
  refine ⟨?_, ?_, resolve_dropLast_valid name env, List.getLast?_concat _⟩
  · intro p
    unfold is_valid_binary
    rcases hm : env.meta p with _ | m
    · simp
    · simp [hm, bne_iff_ne]
  · rcases ho : env.envOverride with _ | v <;>
      rcases hr : env.resourceDir with _ | r <;>
      simp only [resolve_binary_paths, push_if_valid, ho, hr] <;>
      split_ifs <;> simp

/-- Witness for C9: in `envEmptyExe` nothing but the bare name survives
(the only file on disk is not among the candidates' paths), via the
theorem at that environment. -/
theorem binary_resolution_spec_witness :
    (resolve_binary_paths "ffmpeg" envEmptyExe).getLast? = some "ffmpeg" :=
  (binary_resolution_spec "ffmpeg" envEmptyExe).2.2.2

end Honeymelon
